import Mathlib

/-!
Shallow embedding of optimize_images.py, a batch image optimizer that
recursively enumerates .jpg/.jpeg/.png files under a directory, re-encodes
each one as WebP when beneficial (smaller and similar enough), writes the
sibling .webp file, and deletes the original.

External collaborators (PIL codec, the byte contents of encodings, the
resampling filter) are modelled as oracle structures; the control flow of
the script itself -- the quality ladder, the similarity gate, the size
comparison, the write-then-delete ordering, the per-file exception capture,
the enumeration and the tally -- is translated from the source.

Machine floats are modelled as exact rationals; byte strings as lists of
naturals; the process pool of process_directory is linearised (the script
feeds executor.map a fixed list and consumes results in input order, and
each task only touches its own file's path and its sibling .webp path).
-/

/-- Raw byte content of a file or of an encoding (open(...).read() and
BytesIO payloads in the script). -/
abbrev Bytes := List Nat

/-- File path, split as the part before the final suffix plus the suffix
itself, mirroring pathlib's stem/suffix split that with_suffix acts on.
The stem may contain directory separators: the model flattens the tree. -/
structure FilePath where
  stem : String
  ext : String
deriving DecidableEq, Repr

/-- pathlib's with_suffix: replace the final suffix. -/
def FilePath.withSuffix (p : FilePath) (s : String) : FilePath :=
  ⟨p.stem, s⟩

/-- Kind of a directory entry: pathlib's rglob yields both. -/
inductive EntryKind where
  | file
  | dir
deriving DecidableEq, Repr

/-- One entry of the directory tree (data is meaningful for files only). -/
structure Entry where
  path : FilePath
  kind : EntryKind
  data : Bytes
deriving DecidableEq, Repr

/-- The directory tree under the root, flattened to its recursive listing. -/
abbrev FS := List Entry

/-- The call open(path, rb-mode) followed by read: the bytes of the file at p, or none when the
open raises (missing path: FileNotFoundError; directory: IsADirectoryError). -/
def FS.read (fs : FS) (p : FilePath) : Option Bytes :=
  match fs.find? (fun e => decide (e.path = p)) with
  | some e => match e.kind with
    | EntryKind.file => some e.data
    | EntryKind.dir => none
  | none => none

/-- The call open(path, wb-mode) followed by write: truncate/overwrite an existing file
or create a new one; none when the open raises (a directory sits at p). -/
def FS.write (fs : FS) (p : FilePath) (b : Bytes) : Option FS :=
  match fs.find? (fun e => decide (e.path = p)) with
  | some e => match e.kind with
    | EntryKind.file =>
        some (fs.map (fun e0 => if e0.path = p then ⟨e0.path, e0.kind, b⟩ else e0))
    | EntryKind.dir => none
  | none => some (fs ++ [⟨p, EntryKind.file, b⟩])

/-- os.remove(path): delete the file at p; none when the call raises
(missing path, or a directory sits at p). -/
def FS.removeFile (fs : FS) (p : FilePath) : Option FS :=
  match fs.find? (fun e => decide (e.path = p)) with
  | some e => match e.kind with
    | EntryKind.file => some (fs.filter (fun e0 => decide (e0.path ≠ p)))
    | EntryKind.dir => none
  | none => none

/-- A decoded image after conversion to RGB mode: dimensions plus the row-major
pixel list that getdata() yields; PIL RGB channels are 8-bit, and
len(getdata()) is width*height, recorded as invariants. -/
structure RGBImage where
  width : Nat
  height : Nat
  pixels : List (Nat × Nat × Nat)
  pixels_count : pixels.length = width * height
  pixels_bounded : ∀ q ∈ pixels, q.1 ≤ 255 ∧ q.2.1 ≤ 255 ∧ q.2.2 ≤ 255

/-- Oracle for the PIL calls made by analyze_image_quality: Image.open on a
byte buffer composed with the conversion to RGB mode (none models a raised
exception),
and resize, which PIL guarantees returns an image of the requested size. -/
structure PILCfg where
  decodeRGB : Bytes → Option RGBImage
  resize : RGBImage → Nat → Nat → RGBImage
  resize_w : ∀ img w h, (resize img w h).width = w
  resize_h : ∀ img w h, (resize img w h).height = h

/-- Per-pixel term of the loop: sum((a - b) ** 2 for a, b in zip(p1, p2)). -/
def pixelDiff (p q : Nat × Nat × Nat) : Int :=
  ((p.1 : Int) - q.1) ^ 2 + ((p.2.1 : Int) - q.2.1) ^ 2 + ((p.2.2 : Int) - q.2.2) ^ 2

/-- The accumulated diff: for p1, p2 in zip(pixels1, pixels2): diff += ... -/
def sumSqDiff (ps qs : List (Nat × Nat × Nat)) : Int :=
  (List.zipWith pixelDiff ps qs).sum

/-- analyze_image_quality(original_data, webp_data): decode both buffers to
RGB, resize the second to the first's size when they differ, accumulate the
squared channel differences over the zipped pixel lists, and normalise by
len(pixels1) * 3 * 255 ** 2.  Any exception inside the try block -- either
decode raising, or the ZeroDivisionError when the first image has no
pixels -- is caught and yields 0.0. -/
def analyze_image_quality (cfg : PILCfg) (original_data webp_data : Bytes) : ℚ :=
  match cfg.decodeRGB original_data, cfg.decodeRGB webp_data with
  | some img1, some img2 =>
    let img2R := if img1.width = img2.width ∧ img1.height = img2.height then img2
      else cfg.resize img2 img1.width img1.height
    let diff := sumSqDiff img1.pixels img2R.pixels
    let maxDiff : ℚ := ((img1.pixels.length * 3 * 255 ^ 2 : ℕ) : ℚ)
    if maxDiff = 0 then 0
    else 1 - (diff : ℚ) / maxDiff
  | _, _ => 0

/-- The PIL modes Image.open can report for .jpg/.jpeg/.png input: 1, L,
LA, I, P, RGB, RGBA for PNG and L, RGB, CMYK for JPEG.  Among these, the
modes that carry an alpha channel are exactly RGBA and LA (P-mode palette
transparency is metadata, not a channel). -/
inductive PILMode where
  | one
  | L
  | LA
  | I
  | P
  | RGB
  | RGBA
  | CMYK
deriving DecidableEq, Repr

/-- A decoded image as convert_to_webp holds it: its reported mode plus an
opaque handle to the pixel data the encoder consumes. -/
structure PILImage where
  mode : PILMode
  content : Nat
deriving DecidableEq, Repr

/-- The test on line 64 of the script: img.mode is RGBA or LA. -/
def isAlphaMode (m : PILMode) : Bool :=
  decide (m = PILMode.RGBA ∨ m = PILMode.LA)

/-- Oracle for the PIL calls made by convert_to_webp: Image.open on the
file's bytes (none models a decode exception), the conversion to RGB mode,
the lossless WEBP save at quality 90 and the lossy WEBP save at quality q
into a BytesIO buffer (none models an encode exception), plus the
decode/resize oracle that
analyze_image_quality uses on the raw buffers. -/
structure Codec where
  cfg : PILCfg
  openImage : Bytes → Option PILImage
  convertRGB : PILImage → PILImage
  saveLossless : PILImage → Option Bytes
  saveQuality : PILImage → Nat → Option Bytes

/-- Fault profile for the file-system side effects of one call: whether the
initial read succeeds, whether the .webp write runs to completion (when it
does not, writeRemnant is what the interrupted write left on disk), and
whether os.remove succeeds. -/
structure Faults where
  readOk : Bool
  writeOk : Bool
  writeRemnant : Bytes
  removeOk : Bool

/-- The loop state of the quality search: best_size (initialised to
original_size), best_quality (initialised to 90) and best_data
(initialised to None). -/
structure SearchState where
  bestSize : Nat
  bestQuality : Nat
  bestData : Option Bytes
deriving DecidableEq, Repr

/-- One iteration of the for-quality loop: encode at this quality (an
encode exception aborts the whole try block), and if the encoding is
strictly smaller than best_size, compute the similarity against the
original bytes and, when it reaches the 0.95 threshold, record this
encoding as the new best. -/
def qualityStep (cd : Codec) (original_data : Bytes) (img : PILImage)
    (st : SearchState) (quality : Nat) : Except Unit SearchState :=
  match cd.saveQuality img quality with
  | none => Except.error ()
  | some webp_data =>
    if webp_data.length < st.bestSize then
      let similarity := analyze_image_quality cd.cfg original_data webp_data
      if similarity ≥ 95 / 100 then
        Except.ok ⟨webp_data.length, quality, some webp_data⟩
      else Except.ok st
    else Except.ok st

/-- The fixed quality ladder of the script: for quality in [90, 85, 80]. -/
def qualityLevels : List Nat := [90, 85, 80]

/-- The whole quality loop, started from best_size = original_size,
best_quality = 90, best_data = None. -/
def qualitySearch (cd : Codec) (original_data : Bytes) (img : PILImage)
    (original_size : Nat) : Except Unit SearchState :=
  qualityLevels.foldlM (qualityStep cd original_data img) ⟨original_size, 90, none⟩

/-- Lines 62-91: produce the webp_data candidate from the original bytes.
Except.error models an exception escaping to the outer handler; ok none is
the early return None when no quality level was accepted; ok (some wd) is
a candidate that still faces the size comparison. -/
def computeCandidate (cd : Codec) (original_data : Bytes) :
    Except Unit (Option Bytes) :=
  match cd.openImage original_data with
  | none => Except.error ()
  | some img =>
    if isAlphaMode img.mode then
      match cd.saveLossless img with
      | none => Except.error ()
      | some webp_data => Except.ok (some webp_data)
    else
      match qualitySearch cd original_data (cd.convertRGB img) original_data.length with
      | Except.error _ => Except.error ()
      | Except.ok st => Except.ok st.bestData

/-- Lines 98-107: write the accepted candidate to the sibling .webp path,
and only after that write completed delete the original.  A write fault
leaves whatever prefix reached the disk; a remove fault leaves both files;
either raises out of the try block. -/
def writePhase (fl : Faults) (fs : FS) (image_path : FilePath) (webp_data : Bytes) :
    FS × Except Unit (Option Bool) :=
  let webp_path := image_path.withSuffix ".webp"
  if fl.writeOk then
    match FS.write fs webp_path webp_data with
    | none => (fs, Except.error ())
    | some fs1 =>
      if fl.removeOk then
        match FS.removeFile fs1 image_path with
        | none => (fs1, Except.error ())
        | some fs2 => (fs2, Except.ok (some true))
      else (fs1, Except.error ())
  else
    match FS.write fs (image_path.withSuffix ".webp") fl.writeRemnant with
    | none => (fs, Except.error ())
    | some fs1 => (fs1, Except.error ())

/-- The body of convert_to_webp's try block (lines 56-107): read the
original bytes, decode, produce the candidate, skip when it is not
strictly smaller, otherwise write the .webp and delete the original. -/
def convertBody (cd : Codec) (fl : Faults) (fs : FS) (image_path : FilePath) :
    FS × Except Unit (Option Bool) :=
  match FS.read fs image_path with
  | none => (fs, Except.error ())
  | some original_data =>
    if fl.readOk then
      match computeCandidate cd original_data with
      | Except.error _ => (fs, Except.error ())
      | Except.ok none => (fs, Except.ok none)
      | Except.ok (some webp_data) =>
        if webp_data.length ≥ original_data.length then (fs, Except.ok none)
        else writePhase fl fs image_path webp_data
    else (fs, Except.error ())

/-- convert_to_webp(image_path): the try block's value, with any exception
caught and turned into the (False, message) failure outcome (lines
109-111).  The returned Option Bool is the script's Optional[Tuple[bool,
str]] with the log message dropped: none is the skip return None, some
true the (True, ...) success, some false the (False, ...) failure. -/
def convert_to_webp (cd : Codec) (fl : Faults) (fs : FS) (image_path : FilePath) :
    FS × Option Bool :=
  match convertBody cd fl fs image_path with
  | (fs2, Except.ok r) => (fs2, r)
  | (fs2, Except.error _) => (fs2, some false)

/-- Lines 131-132 linearised: executor.map(convert_to_webp, image_files)
applies the conversion to each enumerated path in input order and yields
one result per path; the file system threads through because each task's
effects touch only its own path and its sibling .webp path. -/
def runFiles (cd : Codec) (fl : FilePath → Faults) : FS → List FilePath → FS × List (Option Bool)
  | fs, [] => (fs, [])
  | fs, p :: ps =>
    let step := convert_to_webp cd (fl p) fs p
    let rest := runFiles cd fl step.1 ps
    (rest.1, step.2 :: rest.2)

/-- directory.rglob of the pattern star-dot-ext: every entry of the
recursive listing --
regular file or directory alike, pathlib's wildcard does not test the
entry kind -- whose name matches the pattern, which for these patterns
means its final suffix equals ext (matched case-sensitively on a POSIX
file system). -/
def rglobExt (fs : FS) (ext : String) : List FilePath :=
  (fs.filter (fun e => decide (e.path.ext = ext))).map (fun e => e.path)

/-- The supported input extensions of line 124. -/
def supportedExts : List String := [".jpg", ".jpeg", ".png"]

/-- Lines 122-125: image_files = []; for ext in (...): extend(rglob(...)).
When the root directory is unreadable, pathlib's glob machinery catches
the PermissionError internally and every rglob call silently yields
nothing (pathlib._WildcardSelector suppresses PermissionError), so the
enumeration is empty rather than raising. -/
def enumerateImages (fs : FS) (rootReadable : Bool) : List FilePath :=
  if rootReadable then
    supportedExts.foldl (fun acc ext => acc ++ rglobExt fs ext) []
  else []

/-- Lines 132-142: fold one result at a time into the three counters
(success_count, skip_count, error_count). -/
def tallyResults (rs : List (Option Bool)) : Nat × Nat × Nat :=
  rs.foldl (fun t r =>
    match r with
    | none => (t.1, t.2.1 + 1, t.2.2)
    | some true => (t.1 + 1, t.2.1, t.2.2)
    | some false => (t.1, t.2.1, t.2.2 + 1)) (0, 0, 0)

/-- process_directory (lines 113-144): enumerate once, up front; then (if
creating the process pool succeeds -- poolOk models ProcessPoolExecutor
startup) process every enumerated file and tally the results.  A pool
startup failure raises out of the function (Except.error). -/
def process_directory (cd : Codec) (fl : FilePath → Faults) (rootReadable poolOk : Bool)
    (fs : FS) : FS × Except Unit (Nat × Nat × Nat) :=
  let files := enumerateImages fs rootReadable
  if poolOk then
    let run := runFiles cd fl fs files
    (run.1, Except.ok (tallyResults run.2))
  else (fs, Except.error ())

/-- main (lines 146-161): run process_directory on the working directory;
a normal return prints the summary and falls off the end (exit status 0),
while any exception is caught and turned into sys.exit(1). -/
def mainRun (cd : Codec) (fl : FilePath → Faults) (rootReadable poolOk : Bool)
    (fs : FS) : FS × Nat :=
  match process_directory cd fl rootReadable poolOk fs with
  | (fs2, Except.ok _) => (fs2, 0)
  | (fs2, Except.error _) => (fs2, 1)

/-- Modelled from the spec: the enumeration the specification describes --
exactly the regular files (not directories) whose extension is in the
supported input set.  Stated for comparison against the source-modelled
enumerateImages. -/
def specRegularImageFiles (fs : FS) : List FilePath :=
  (fs.filter (fun e =>
    decide (e.kind = EntryKind.file) && decide (e.path.ext ∈ supportedExts))).map
      (fun e => e.path)

/-- No entry of the listing carries the path p. -/
def FS.absent (fs : FS) (p : FilePath) : Prop :=
  ∀ e ∈ fs, e.path ≠ p

/-- Concrete 1x1 black RGB image used to instantiate the oracles. -/
def exImg1 : RGBImage where
  width := 1
  height := 1
  pixels := [(0, 0, 0)]
  pixels_count := rfl
  pixels_bounded := by decide

/-- Concrete resampler: a black image of the requested size. -/
def exResize : RGBImage → Nat → Nat → RGBImage := fun _ w h =>
  { width := w
    height := h
    pixels := List.replicate (w * h) (0, 0, 0)
    pixels_count := List.length_replicate (w * h) (0, 0, 0)
    pixels_bounded := fun q hq => by
      have hq2 := List.eq_of_mem_replicate hq
      subst hq2
      exact ⟨Nat.zero_le 255, Nat.zero_le 255, Nat.zero_le 255⟩ }

/-- Wrap a decode table into a PILCfg with the concrete resampler. -/
def mkCfg (dec : Bytes → Option RGBImage) : PILCfg where
  decodeRGB := dec
  resize := exResize
  resize_w := fun _ _ _ => rfl
  resize_h := fun _ _ _ => rfl

/-- Concrete original bytes: an 8-byte opaque image file. -/
def exOrig : Bytes := List.replicate 8 0

/-- Concrete quality-90 encoding: 5 bytes, decodes identically. -/
def enc90 : Bytes := [9, 9, 9, 9, 9]

/-- Concrete quality-85 encoding: 3 bytes, decodes identically. -/
def enc85 : Bytes := [8, 8, 8]

/-- Concrete quality-80 encoding: 10 bytes, larger than every best. -/
def enc80 : Bytes := [7, 7, 7, 7, 7, 7, 7, 7, 7, 7]

/-- Concrete decode table: the original and the 90/85 encodings all decode
to the same 1x1 black image (similarity 1); everything else fails. -/
def exDec : Bytes → Option RGBImage := fun b =>
  if b = exOrig then some exImg1
  else if b = enc90 then some exImg1
  else if b = enc85 then some exImg1
  else none

/-- Concrete opaque decoded image. -/
def exImgRGB : PILImage := ⟨PILMode.RGB, 0⟩

/-- Concrete codec exercising the lossy quality ladder. -/
def exCodec : Codec where
  cfg := mkCfg exDec
  openImage := fun b => if b = exOrig then some exImgRGB else none
  convertRGB := fun img => img
  saveLossless := fun _ => none
  saveQuality := fun _ q =>
    if q = 90 then some enc90 else if q = 85 then some enc85
    else if q = 80 then some enc80 else none

/-- Concrete path of an RGBA image file. -/
def exAPath : FilePath := ⟨"photos/cat", ".jpg"⟩

/-- Concrete tree holding one 4-byte RGBA file. -/
def exAFS : FS := [⟨exAPath, EntryKind.file, [1, 2, 3, 4]⟩]

/-- Concrete codec exercising the alpha (lossless) path: every nonempty
buffer decodes to an RGBA image and the lossless encoding is 2 bytes. -/
def exACodec : Codec where
  cfg := mkCfg (fun _ => none)
  openImage := fun b => if b.length = 0 then none else some ⟨PILMode.RGBA, 0⟩
  convertRGB := fun img => img
  saveLossless := fun _ => some [9, 9]
  saveQuality := fun _ _ => none

/-- Fault-free profile. -/
def exFaultsOk : Faults := ⟨true, true, [], true⟩

/-- Profile whose only fault is that os.remove raises. -/
def exFaultsRemoveFail : Faults := ⟨true, true, [], false⟩

/-- Concrete path of a 1-byte RGBA file whose lossless encoding is larger. -/
def exBPath : FilePath := ⟨"icons/dot", ".png"⟩

/-- Concrete tree holding that 1-byte file. -/
def exBFS : FS := [⟨exBPath, EntryKind.file, [7]⟩]

/-- Concrete tree holding a single directory whose name matches *.jpg. -/
def exDirFS : FS := [⟨⟨"photos/thumbs", ".jpg"⟩, EntryKind.dir, []⟩]

/-- Concrete tree holding one matching regular file, used for the
unreadable-root scenario. -/
def exC9FS : FS := [⟨⟨"a", ".jpg"⟩, EntryKind.file, [1, 2, 3]⟩]

/-- Searching with find? is unchanged by a filter whose predicate is
implied by the search predicate. -/
theorem find?_filter_of_imp {α : Type} {l : List α} {f g : α → Bool}
    (h : ∀ x, f x = true → g x = true) :
    (l.filter g).find? f = l.find? f := by
  induction l with
  | nil => rfl
  | cons a l ih =>
    by_cases ha : g a = true
    · rw [List.filter_cons_of_pos ha]
      cases hfa : f a with
      | true => simp [List.find?_cons, hfa]
      | false => simp [List.find?_cons, hfa, ih]
    · have hfa : f a = false := by
        cases hfa : f a with
        | true => exact absurd (h a hfa) ha
        | false => rfl
      rw [List.filter_cons_of_neg (by simp [ha])]
      simp [List.find?_cons, hfa, ih]

/-- Reading back a completed write yields exactly the written bytes. -/
theorem FS.read_write_self {fs fs2 : FS} {p : FilePath} {b : Bytes}
    (h : FS.write fs p b = some fs2) : FS.read fs2 p = some b := by
  unfold FS.write at h
  cases hf : fs.find? (fun e => decide (e.path = p)) with
  | none =>
    rw [hf] at h
    simp only [Option.some.injEq] at h
    subst h
    unfold FS.read
    rw [List.find?_append, hf]
    simp
  | some e =>
    rw [hf] at h
    obtain ⟨ep, ek, ed⟩ := e
    cases ek with
    | dir => exact Option.noConfusion h
    | file =>
      simp only [Option.some.injEq] at h
      subst h
      have hep : ep = p := by
        have := List.find?_some hf
        simpa using this
      unfold FS.read
      rw [List.find?_map]
      have hpred : ((fun e0 => decide (e0.path = p)) ∘
          (fun e0 => if e0.path = p then (⟨e0.path, e0.kind, b⟩ : Entry) else e0)) =
          (fun e0 => decide (e0.path = p)) := by
        funext e0
        by_cases h0 : e0.path = p <;> simp [h0]
      rw [hpred, hf]
      simp [hep]

/-- A write at p leaves reads at any other path unchanged. -/
theorem FS.read_write_ne {fs fs2 : FS} {p q : FilePath} {b : Bytes}
    (hqp : q ≠ p) (h : FS.write fs p b = some fs2) : FS.read fs2 q = FS.read fs q := by
  unfold FS.write at h
  cases hf : fs.find? (fun e => decide (e.path = p)) with
  | none =>
    rw [hf] at h
    simp only [Option.some.injEq] at h
    subst h
    unfold FS.read
    rw [List.find?_append]
    have hsingle : List.find? (fun e => decide (e.path = q))
        [(⟨p, EntryKind.file, b⟩ : Entry)] = none := by
      simp [List.find?_cons, Ne.symm hqp]
    rw [hsingle, Option.or_none]
  | some e =>
    rw [hf] at h
    obtain ⟨ep, ek, ed⟩ := e
    cases ek with
    | dir => exact Option.noConfusion h
    | file =>
      simp only [Option.some.injEq] at h
      subst h
      unfold FS.read
      rw [List.find?_map]
      have hpred : ((fun e0 => decide (e0.path = q)) ∘
          (fun e0 => if e0.path = p then (⟨e0.path, e0.kind, b⟩ : Entry) else e0)) =
          (fun e0 => decide (e0.path = q)) := by
        funext e0
        by_cases h0 : e0.path = p <;> simp [h0]
      rw [hpred]
      cases hq : fs.find? (fun e0 => decide (e0.path = q)) with
      | none => rfl
      | some e1 =>
        have he1 : e1.path = q := by
          have := List.find?_some hq
          simpa using this
        have he1p : ¬ e1.path = p := by
          rw [he1]
          exact hqp
        simp [he1p]

/-- After a successful remove at p, reading p fails. -/
theorem FS.read_remove_self {fs fs2 : FS} {p : FilePath}
    (h : FS.removeFile fs p = some fs2) : FS.read fs2 p = none := by
  unfold FS.removeFile at h
  cases hf : fs.find? (fun e => decide (e.path = p)) with
  | none => rw [hf] at h; exact Option.noConfusion h
  | some e =>
    rw [hf] at h
    obtain ⟨ep, ek, ed⟩ := e
    cases ek with
    | dir => exact Option.noConfusion h
    | file =>
      simp only [Option.some.injEq] at h
      subst h
      unfold FS.read
      have hnone : List.find? (fun e0 => decide (e0.path = p))
          (fs.filter (fun e0 => decide (e0.path ≠ p))) = none := by
        refine List.find?_eq_none.mpr ?_
        intro x hx
        have hx2 := (List.mem_filter.mp hx).2
        simp at hx2
        simp [hx2]
      rw [hnone]

/-- A remove at p leaves reads at any other path unchanged. -/
theorem FS.read_remove_ne {fs fs2 : FS} {p q : FilePath}
    (hqp : q ≠ p) (h : FS.removeFile fs p = some fs2) : FS.read fs2 q = FS.read fs q := by
  unfold FS.removeFile at h
  cases hf : fs.find? (fun e => decide (e.path = p)) with
  | none => rw [hf] at h; exact Option.noConfusion h
  | some e =>
    rw [hf] at h
    obtain ⟨ep, ek, ed⟩ := e
    cases ek with
    | dir => exact Option.noConfusion h
    | file =>
      simp only [Option.some.injEq] at h
      subst h
      unfold FS.read
      rw [find?_filter_of_imp]
      intro x hx
      simp at hx ⊢
      rw [hx]
      exact hqp

/-- An absent path reads as none. -/
theorem FS.absent_read {fs : FS} {p : FilePath} (h : FS.absent fs p) :
    FS.read fs p = none := by
  unfold FS.read
  have hnone : fs.find? (fun e => decide (e.path = p)) = none := by
    refine List.find?_eq_none.mpr ?_
    intro x hx
    simp [h x hx]
  rw [hnone]

/-- A write at a different path preserves absence. -/
theorem FS.absent_write {fs fs2 : FS} {p q : FilePath} {b : Bytes}
    (hq : q ≠ p) (ha : FS.absent fs p) (h : FS.write fs q b = some fs2) :
    FS.absent fs2 p := by
  unfold FS.write at h
  cases hf : fs.find? (fun e => decide (e.path = q)) with
  | none =>
    rw [hf] at h
    simp only [Option.some.injEq] at h
    subst h
    intro e he
    rcases List.mem_append.mp he with h1 | h1
    · exact ha e h1
    · simp at h1
      subst h1
      exact hq
  | some e =>
    rw [hf] at h
    obtain ⟨ep, ek, ed⟩ := e
    cases ek with
    | dir => exact Option.noConfusion h
    | file =>
      simp only [Option.some.injEq] at h
      subst h
      intro e he
      rcases List.mem_map.mp he with ⟨e0, he0, he0e⟩
      by_cases h0 : e0.path = q
      · rw [if_pos h0] at he0e
        subst he0e
        exact ha e0 he0
      · rw [if_neg h0] at he0e
        subst he0e
        exact ha e0 he0

/-- A remove anywhere preserves absence. -/
theorem FS.absent_remove {fs fs2 : FS} {p q : FilePath}
    (ha : FS.absent fs p) (h : FS.removeFile fs q = some fs2) :
    FS.absent fs2 p := by
  unfold FS.removeFile at h
  cases hf : fs.find? (fun e => decide (e.path = q)) with
  | none => rw [hf] at h; exact Option.noConfusion h
  | some e =>
    rw [hf] at h
    obtain ⟨ep, ek, ed⟩ := e
    cases ek with
    | dir => exact Option.noConfusion h
    | file =>
      simp only [Option.some.injEq] at h
      subst h
      intro e he
      exact ha e (List.mem_of_mem_filter he)

/-- After removing p, the path p is absent from the listing. -/
theorem FS.remove_self_absent {fs fs2 : FS} {p : FilePath}
    (h : FS.removeFile fs p = some fs2) : FS.absent fs2 p := by
  unfold FS.removeFile at h
  cases hf : fs.find? (fun e => decide (e.path = p)) with
  | none => rw [hf] at h; exact Option.noConfusion h
  | some e =>
    rw [hf] at h
    obtain ⟨ep, ek, ed⟩ := e
    cases ek with
    | dir => exact Option.noConfusion h
    | file =>
      simp only [Option.some.injEq] at h
      subst h
      intro e he
      have := (List.mem_filter.mp he).2
      simpa using this

/-- A path that reads as a file can be removed. -/
theorem FS.removeFile_isSome_of_read {fs : FS} {p : FilePath} {b : Bytes}
    (h : FS.read fs p = some b) : ∃ fs2, FS.removeFile fs p = some fs2 := by
  unfold FS.read at h
  unfold FS.removeFile
  cases hf : fs.find? (fun e => decide (e.path = p)) with
  | none => rw [hf] at h; exact Option.noConfusion h
  | some e =>
    rw [hf] at h
    obtain ⟨ep, ek, ed⟩ := e
    cases ek with
    | dir => exact Option.noConfusion h
    | file => exact ⟨_, rfl⟩

/-- A successful write phase leaves the candidate bytes at the sibling
.webp path and no trace of the original. -/
theorem writePhase_success {fl : Faults} {fs : FS} {p : FilePath} {wd : Bytes}
    (hp : FilePath.withSuffix p ".webp" ≠ p)
    (h : (writePhase fl fs p wd).2 = Except.ok (some true)) :
    FS.read (writePhase fl fs p wd).1 (FilePath.withSuffix p ".webp") = some wd ∧
    FS.read (writePhase fl fs p wd).1 p = none ∧
    FS.absent (writePhase fl fs p wd).1 p := by
  by_cases hw : fl.writeOk = true
  · cases hwrite : FS.write fs (FilePath.withSuffix p ".webp") wd with
    | none => simp [writePhase, hw, hwrite] at h
    | some fs1 =>
      by_cases hrm : fl.removeOk = true
      · cases hremove : FS.removeFile fs1 p with
        | none => simp [writePhase, hw, hwrite, hrm, hremove] at h
        | some fs3 =>
          simp only [writePhase, hw, hwrite, hrm, if_true, hremove]
          refine ⟨?_, FS.read_remove_self hremove, FS.remove_self_absent hremove⟩
          rw [FS.read_remove_ne hp hremove]
          exact FS.read_write_self hwrite
      · simp [writePhase, hw, hwrite, hrm] at h
  · cases hwrite : FS.write fs (FilePath.withSuffix p ".webp") fl.writeRemnant with
    | none => simp [writePhase, hw, hwrite] at h
    | some fs1 => simp [writePhase, hw, hwrite] at h

/-- A write phase that does not end in success never touches the original. -/
theorem writePhase_not_success {fl : Faults} {fs : FS} {p : FilePath} {wd : Bytes}
    (hp : FilePath.withSuffix p ".webp" ≠ p)
    (h : (writePhase fl fs p wd).2 ≠ Except.ok (some true)) :
    FS.read (writePhase fl fs p wd).1 p = FS.read fs p := by
  by_cases hw : fl.writeOk = true
  · cases hwrite : FS.write fs (FilePath.withSuffix p ".webp") wd with
    | none => simp [writePhase, hw, hwrite]
    | some fs1 =>
      by_cases hrm : fl.removeOk = true
      · cases hremove : FS.removeFile fs1 p with
        | none =>
          simp only [writePhase, hw, hwrite, hrm, if_true, hremove]
          exact FS.read_write_ne (Ne.symm hp) hwrite
        | some fs3 =>
          exact absurd (by simp [writePhase, hw, hwrite, hrm, hremove]) h
      · simp only [writePhase, hw, hwrite, if_true]
        rw [if_neg hrm]
        exact FS.read_write_ne (Ne.symm hp) hwrite
  · cases hwrite : FS.write fs (FilePath.withSuffix p ".webp") fl.writeRemnant with
    | none => simp [writePhase, hw, hwrite]
    | some fs1 =>
      simp only [writePhase, hw, Bool.false_eq_true, if_false, hwrite]
      exact FS.read_write_ne (Ne.symm hp) hwrite

/-- The write phase preserves absence of any path that is not a .webp
sibling. -/
theorem writePhase_absent {fl : Faults} {fs : FS} {p x : FilePath} {wd : Bytes}
    (hx : x.ext ≠ ".webp") (ha : FS.absent fs x) :
    FS.absent (writePhase fl fs p wd).1 x := by
  have hxw : FilePath.withSuffix p ".webp" ≠ x := by
    intro hc
    refine hx ?_
    rw [← hc]
    rfl
  by_cases hw : fl.writeOk = true
  · cases hwrite : FS.write fs (FilePath.withSuffix p ".webp") wd with
    | none => simpa [writePhase, hw, hwrite] using ha
    | some fs1 =>
      have ha1 : FS.absent fs1 x := FS.absent_write hxw ha hwrite
      by_cases hrm : fl.removeOk = true
      · cases hremove : FS.removeFile fs1 p with
        | none => simpa [writePhase, hw, hwrite, hrm, hremove] using ha1
        | some fs3 =>
          simp only [writePhase, hw, hwrite, hrm, if_true, hremove]
          exact FS.absent_remove ha1 hremove
      · simp only [writePhase, hw, hwrite, if_true]
        rw [if_neg hrm]
        exact ha1
  · cases hwrite : FS.write fs (FilePath.withSuffix p ".webp") fl.writeRemnant with
    | none => simpa [writePhase, hw, hwrite] using ha
    | some fs1 =>
      simp only [writePhase, hw, Bool.false_eq_true, if_false, hwrite]
      exact FS.absent_write hxw ha hwrite

/-- The wrapper returns the body's tree, and succeeds exactly when the
body does. -/
theorem convert_eq_body (cd : Codec) (fl : Faults) (fs : FS) (p : FilePath) :
    (convert_to_webp cd fl fs p).1 = (convertBody cd fl fs p).1 ∧
    ((convert_to_webp cd fl fs p).2 = some true ↔
      (convertBody cd fl fs p).2 = Except.ok (some true)) := by
  rcases hb : convertBody cd fl fs p with ⟨gs, r⟩
  cases r <;> simp [convert_to_webp, hb]

/-- An exception in the body is captured as the failure outcome with the
body's tree kept. -/
theorem convert_error_captured (cd : Codec) (fl : Faults) (fs : FS) (p : FilePath)
    (u : Unit) (h : (convertBody cd fl fs p).2 = Except.error u) :
    convert_to_webp cd fl fs p = ((convertBody cd fl fs p).1, some false) := by
  rcases hb : convertBody cd fl fs p with ⟨gs, r⟩
  rw [hb] at h
  simp only at h
  subst h
  simp [convert_to_webp, hb]

/-- The body either leaves the tree alone without a success outcome, or
reads the original and hands a strictly smaller candidate to the write
phase. -/
theorem convertBody_cases (cd : Codec) (fl : Faults) (fs : FS) (p : FilePath) :
    ((convertBody cd fl fs p).1 = fs ∧ (convertBody cd fl fs p).2 ≠ Except.ok (some true))
    ∨ ∃ od wd, FS.read fs p = some od ∧ wd.length < od.length ∧
        convertBody cd fl fs p = writePhase fl fs p wd := by
  cases hr : FS.read fs p with
  | none => left; simp [convertBody, hr]
  | some od =>
    by_cases hro : fl.readOk = true
    · cases hc : computeCandidate cd od with
      | error u => left; simp [convertBody, hr, hro, hc]
      | ok c =>
        cases c with
        | none => left; simp [convertBody, hr, hro, hc]
        | some wd =>
          by_cases hlen : od.length ≤ wd.length
          · left
            simp [convertBody, hr, hro, hc, ge_iff_le, hlen]
          · right
            refine ⟨od, wd, rfl, Nat.lt_of_not_le hlen, ?_⟩
            simp [convertBody, hr, hro, hc, ge_iff_le, hlen]
    · left; simp [convertBody, hr, hro]

/-- Conversion preserves absence of any non-.webp path. -/
theorem convert_absent {cd : Codec} {fl : Faults} {fs : FS} {q x : FilePath}
    (hx : x.ext ≠ ".webp") (ha : FS.absent fs x) :
    FS.absent (convert_to_webp cd fl fs q).1 x := by
  rcases convertBody_cases cd fl fs q with ⟨h1, _⟩ | ⟨od, wd, hr, hlt, heq⟩
  · rw [(convert_eq_body cd fl fs q).1, h1]
    exact ha
  · rw [(convert_eq_body cd fl fs q).1, heq]
    exact writePhase_absent hx ha

/-- A conversion that returns the success outcome wrote the strictly
smaller candidate to the sibling .webp path and removed the original. -/
theorem convert_true_post {cd : Codec} {fl : Faults} {fs : FS} {p : FilePath}
    (hp : FilePath.withSuffix p ".webp" ≠ p)
    (h : (convert_to_webp cd fl fs p).2 = some true) :
    ∃ od wd, FS.read fs p = some od ∧ wd.length < od.length ∧
      FS.read (convert_to_webp cd fl fs p).1 (FilePath.withSuffix p ".webp") = some wd ∧
      FS.read (convert_to_webp cd fl fs p).1 p = none ∧
      FS.absent (convert_to_webp cd fl fs p).1 p := by
  have hb := (convert_eq_body cd fl fs p).2.mp h
  rcases convertBody_cases cd fl fs p with ⟨h1, h2⟩ | ⟨od, wd, hr, hlt, heq⟩
  · exact absurd hb h2
  · have h3 : (writePhase fl fs p wd).2 = Except.ok (some true) := by
      rw [← heq]
      exact hb
    obtain ⟨hwr, hrd, habs⟩ := writePhase_success hp h3
    refine ⟨od, wd, hr, hlt, ?_, ?_, ?_⟩ <;>
      rw [(convert_eq_body cd fl fs p).1, heq] <;> assumption

/-- A conversion that does not return the success outcome leaves the
original byte-for-byte as it was. -/
theorem convert_not_true_read {cd : Codec} {fl : Faults} {fs : FS} {p : FilePath}
    (hp : FilePath.withSuffix p ".webp" ≠ p)
    (h : (convert_to_webp cd fl fs p).2 ≠ some true) :
    FS.read (convert_to_webp cd fl fs p).1 p = FS.read fs p := by
  have hb : (convertBody cd fl fs p).2 ≠ Except.ok (some true) := fun hc =>
    h ((convert_eq_body cd fl fs p).2.mpr hc)
  rcases convertBody_cases cd fl fs p with ⟨h1, _⟩ | ⟨od, wd, hr, hlt, heq⟩
  · rw [(convert_eq_body cd fl fs p).1, h1]
  · rw [(convert_eq_body cd fl fs p).1, heq]
    refine writePhase_not_success hp ?_
    rw [← heq]
    exact hb

/-- One outcome per dispatched file, no matter what the outcomes are. -/
theorem runFiles_length (cd : Codec) (fl : FilePath → Faults) :
    ∀ (fs : FS) (ps : List FilePath), (runFiles cd fl fs ps).2.length = ps.length := by
  intro fs ps
  induction ps generalizing fs with
  | nil => rfl
  | cons p ps ih => simp [runFiles, ih]

/-- The driver preserves absence of any non-.webp path. -/
theorem runFiles_absent (cd : Codec) (fl : FilePath → Faults) {x : FilePath}
    (hx : x.ext ≠ ".webp") :
    ∀ (fs : FS) (ps : List FilePath), FS.absent fs x →
      FS.absent (runFiles cd fl fs ps).1 x := by
  intro fs ps
  induction ps generalizing fs with
  | nil => intro ha; simpa [runFiles] using ha
  | cons p ps ih =>
    intro ha
    simp only [runFiles]
    exact ih _ (convert_absent hx ha)

/-- Any file of the batch whose outcome is the success outcome is absent
from the final tree. -/
theorem runFiles_converted_absent (cd : Codec) (fl : FilePath → Faults) :
    ∀ (fs : FS) (ps : List FilePath), (∀ y ∈ ps, y.ext ≠ ".webp") →
      ∀ pr ∈ List.zip ps (runFiles cd fl fs ps).2, pr.2 = some true →
        FS.absent (runFiles cd fl fs ps).1 pr.1 := by
  intro fs ps
  induction ps generalizing fs with
  | nil => intro _ pr hpr; simp [runFiles] at hpr
  | cons p ps ih =>
    intro hext pr hpr htrue
    simp only [runFiles, List.zip_cons_cons] at hpr
    rcases List.mem_cons.mp hpr with h1 | h1
    · subst h1
      simp only at htrue
      have hpext : p.ext ≠ ".webp" := hext p (List.mem_cons_self p ps)
      have hpw : FilePath.withSuffix p ".webp" ≠ p := by
        intro hc
        refine hpext ?_
        rw [← hc]
        rfl
      obtain ⟨od, wd, _, _, _, _, habs⟩ := convert_true_post hpw htrue
      simp only [runFiles]
      exact runFiles_absent cd fl hpext _ ps habs
    · simp only [runFiles]
      exact ih _ (fun y hy => hext y (List.mem_cons_of_mem p hy)) pr h1 htrue

/-- The enumeration, unfolded to its three extension groups. -/
theorem enumerateImages_eq (fs : FS) :
    enumerateImages fs true =
      rglobExt fs ".jpg" ++ rglobExt fs ".jpeg" ++ rglobExt fs ".png" := by
  simp [enumerateImages, supportedExts]

/-- Membership in one extension group. -/
theorem mem_rglobExt {fs : FS} {x : FilePath} {ext : String} :
    x ∈ rglobExt fs ext ↔ ∃ e ∈ fs, e.path = x ∧ x.ext = ext := by
  simp only [rglobExt, List.mem_map, List.mem_filter, decide_eq_true_eq]
  constructor
  · rintro ⟨e, ⟨he, hext⟩, rfl⟩
    exact ⟨e, he, rfl, hext⟩
  · rintro ⟨e, he, rfl, hext⟩
    exact ⟨e, ⟨he, hext⟩, rfl⟩

/-- Membership in the enumeration: some entry of the tree (of either kind)
carries the path, and its extension is in the supported input set. -/
theorem mem_enumerateImages {fs : FS} {x : FilePath} :
    x ∈ enumerateImages fs true ↔
      (x.ext ∈ supportedExts ∧ ∃ e ∈ fs, e.path = x) := by
  rw [enumerateImages_eq]
  simp only [List.mem_append, mem_rglobExt, supportedExts, List.mem_cons,
    List.mem_singleton, List.not_mem_nil, or_false]
  constructor
  · rintro ((⟨e, he, hp, hx⟩ | ⟨e, he, hp, hx⟩) | ⟨e, he, hp, hx⟩) <;>
      exact ⟨by simp [hx], e, he, hp⟩
  · rintro ⟨hx, e, he, hp⟩
    rcases hx with hx | hx | hx
    · exact Or.inl (Or.inl ⟨e, he, hp, hx⟩)
    · exact Or.inl (Or.inr ⟨e, he, hp, hx⟩)
    · exact Or.inr ⟨e, he, hp, hx⟩

/-- Every enumerated path carries a supported extension. -/
theorem enumerateImages_ext {fs : FS} {x : FilePath} {b : Bool}
    (h : x ∈ enumerateImages fs b) : x.ext ∈ supportedExts := by
  cases b with
  | false => simp [enumerateImages] at h
  | true => exact (mem_enumerateImages.mp h).1

/-- The counting loop, with an arbitrary accumulator. -/
theorem tally_aux : ∀ (rs : List (Option Bool)) (t : Nat × Nat × Nat),
    rs.foldl (fun t r =>
      match r with
      | none => (t.1, t.2.1 + 1, t.2.2)
      | some true => (t.1 + 1, t.2.1, t.2.2)
      | some false => (t.1, t.2.1, t.2.2 + 1)) t =
      (t.1 + rs.countP (fun r => decide (r = some true)),
       t.2.1 + rs.countP (fun r => decide (r = none)),
       t.2.2 + rs.countP (fun r => decide (r = some false))) := by
  intro rs
  induction rs with
  | nil => intro t; simp
  | cons r rs ih =>
    intro t
    rcases r with _ | b
    · rw [List.foldl_cons, ih]
      simp only [List.countP_cons]
      simp [Prod.ext_iff]
      omega
    · cases b <;>
        (rw [List.foldl_cons, ih]
         simp only [List.countP_cons]
         simp [Prod.ext_iff]
         try omega)

/-- The tally is exactly the three outcome counts. -/
theorem tallyResults_eq (rs : List (Option Bool)) :
    tallyResults rs =
      (rs.countP (fun r => decide (r = some true)),
       rs.countP (fun r => decide (r = none)),
       rs.countP (fun r => decide (r = some false))) := by
  unfold tallyResults
  rw [tally_aux]
  simp

/-- The three outcome counts partition the result list. -/
theorem counts_sum (rs : List (Option Bool)) :
    rs.countP (fun r => decide (r = some true)) +
    rs.countP (fun r => decide (r = none)) +
    rs.countP (fun r => decide (r = some false)) = rs.length := by
  induction rs with
  | nil => rfl
  | cons r rs ih =>
    rcases r with _ | b
    · simp [List.countP_cons]
      omega
    · cases b <;> (simp [List.countP_cons]; omega)

/-- Squared difference of two bytes is at most 255 squared. -/
theorem sq_diff_le {a b : Nat} (ha : a ≤ 255) (hb : b ≤ 255) :
    ((a : Int) - b) ^ 2 ≤ 255 ^ 2 := by
  have h1 : -(255 : Int) ≤ (a : Int) - b := by omega
  have h2 : (a : Int) - b ≤ 255 := by omega
  exact sq_le_sq' h1 h2

/-- One pixel's contribution is non-negative. -/
theorem pixelDiff_nonneg (p q : Nat × Nat × Nat) : 0 ≤ pixelDiff p q := by
  unfold pixelDiff
  positivity

/-- One pixel's contribution is at most 3 times 255 squared. -/
theorem pixelDiff_le {p q : Nat × Nat × Nat}
    (hp : p.1 ≤ 255 ∧ p.2.1 ≤ 255 ∧ p.2.2 ≤ 255)
    (hq : q.1 ≤ 255 ∧ q.2.1 ≤ 255 ∧ q.2.2 ≤ 255) :
    pixelDiff p q ≤ 3 * 255 ^ 2 := by
  unfold pixelDiff
  have h1 := sq_diff_le hp.1 hq.1
  have h2 := sq_diff_le hp.2.1 hq.2.1
  have h3 := sq_diff_le hp.2.2 hq.2.2
  linarith

/-- The accumulated diff is non-negative. -/
theorem sumSqDiff_nonneg : ∀ (ps qs : List (Nat × Nat × Nat)), 0 ≤ sumSqDiff ps qs
  | [], _ => by simp [sumSqDiff]
  | _ :: _, [] => by simp [sumSqDiff]
  | p :: ps, q :: qs => by
    have ih := sumSqDiff_nonneg ps qs
    have h1 := pixelDiff_nonneg p q
    simp only [sumSqDiff, List.zipWith_cons_cons, List.sum_cons] at ih ⊢
    linarith

/-- The accumulated diff over bounded pixels is at most the first list's
length times 3 times 255 squared. -/
theorem sumSqDiff_le : ∀ (ps qs : List (Nat × Nat × Nat)),
    (∀ x ∈ ps, x.1 ≤ 255 ∧ x.2.1 ≤ 255 ∧ x.2.2 ≤ 255) →
    (∀ x ∈ qs, x.1 ≤ 255 ∧ x.2.1 ≤ 255 ∧ x.2.2 ≤ 255) →
    sumSqDiff ps qs ≤ (ps.length : Int) * (3 * 255 ^ 2)
  | [], _ => by intro _ _; simp [sumSqDiff]
  | _ :: ps, [] => by
    intro _ _
    simp only [sumSqDiff, List.zipWith_nil_right, List.sum_nil, List.length_cons]
    positivity
  | p :: ps, q :: qs => by
    intro hp hq
    have ih := sumSqDiff_le ps qs (fun x hx => hp x (List.mem_cons_of_mem p hx))
      (fun x hx => hq x (List.mem_cons_of_mem q hx))
    have h1 := pixelDiff_le (hp p (List.mem_cons_self p ps)) (hq q (List.mem_cons_self q qs))
    simp only [sumSqDiff, List.zipWith_cons_cons, List.sum_cons, List.length_cons] at ih ⊢
    push_cast
    linarith

/-- The write phase either succeeds or raises; it never skips. -/
theorem writePhase_outcome (fl : Faults) (fs : FS) (p : FilePath) (wd : Bytes) :
    (writePhase fl fs p wd).2 = Except.ok (some true) ∨
    (writePhase fl fs p wd).2 = Except.error () := by
  by_cases hw : fl.writeOk = true
  · cases hwrite : FS.write fs (FilePath.withSuffix p ".webp") wd with
    | none => right; simp [writePhase, hw, hwrite]
    | some fs1 =>
      by_cases hrm : fl.removeOk = true
      · cases hremove : FS.removeFile fs1 p with
        | none => right; simp [writePhase, hw, hwrite, hrm, hremove]
        | some fs3 => left; simp [writePhase, hw, hwrite, hrm, hremove]
      · right; simp [writePhase, hw, hwrite, hrm]
  · cases hwrite : FS.write fs (FilePath.withSuffix p ".webp") fl.writeRemnant with
    | none => right; simp [writePhase, hw, hwrite]
    | some fs1 => right; simp [writePhase, hw, hwrite]

/-- C4: for every pair of decodable images, the similarity score equals 1
minus the sum of squared per-channel pixel differences divided by
pixel_count * 3 * 255^2, where the candidate (second argument) -- never
the original -- is resized to the original's dimensions when they differ,
so that the summation ranges over exactly the original's pixel grid. -/
theorem spec_C4_similarity_formula (cfg : PILCfg) (od wd : Bytes)
    (img1 img2 img2R : RGBImage)
    (h1 : cfg.decodeRGB od = some img1) (h2 : cfg.decodeRGB wd = some img2)
    (hR : img2R = if img1.width = img2.width ∧ img1.height = img2.height then img2
        else cfg.resize img2 img1.width img1.height)
    (hnz : img1.pixels.length ≠ 0) :
    analyze_image_quality cfg od wd =
      1 - (sumSqDiff img1.pixels img2R.pixels : ℚ)
          / ((img1.pixels.length * 3 * 255 ^ 2 : ℕ) : ℚ)
    ∧ img2R.width = img1.width ∧ img2R.height = img1.height
    ∧ (List.zipWith pixelDiff img1.pixels img2R.pixels).length = img1.pixels.length := by
  have hwh : img2R.width = img1.width ∧ img2R.height = img1.height := by
    by_cases hsz : img1.width = img2.width ∧ img1.height = img2.height
    · rw [hR, if_pos hsz]
      exact ⟨hsz.1.symm, hsz.2.symm⟩
    · rw [hR, if_neg hsz]
      exact ⟨cfg.resize_w img2 img1.width img1.height,
        cfg.resize_h img2 img1.width img1.height⟩
  have hlen : img2R.pixels.length = img1.pixels.length := by
    rw [img2R.pixels_count, hwh.1, hwh.2, ← img1.pixels_count]
  have hM : ((img1.pixels.length * 3 * 255 ^ 2 : ℕ) : ℚ) ≠ 0 := by
    simp only [ne_eq, Nat.cast_eq_zero, Nat.mul_eq_zero]
    push_neg
    refine ⟨⟨hnz, by norm_num⟩, by norm_num⟩
  refine ⟨?_, hwh.1, hwh.2, ?_⟩
  · unfold analyze_image_quality
    simp only [h1, h2, if_neg hM]
    rw [hR]
  · rw [List.length_zipWith, hlen, Nat.min_self]

/-- C5: the similarity estimator never propagates an exception: on any
decode error it returns exactly 0, and its result always lies in the
closed interval from 0 to 1. -/
theorem spec_C5_fail_closed (cfg : PILCfg) (od wd : Bytes) :
    ((cfg.decodeRGB od = none ∨ cfg.decodeRGB wd = none) →
      analyze_image_quality cfg od wd = 0)
    ∧ 0 ≤ analyze_image_quality cfg od wd
    ∧ analyze_image_quality cfg od wd ≤ 1 := by
  refine ⟨?_, ?_⟩
  · intro h
    cases hd1 : cfg.decodeRGB od with
    | none => simp [analyze_image_quality, hd1]
    | some img1 =>
      cases hd2 : cfg.decodeRGB wd with
      | none => simp [analyze_image_quality, hd1, hd2]
      | some img2 =>
        rw [hd1, hd2] at h
        rcases h with h | h <;> exact Option.noConfusion h
  · cases hd1 : cfg.decodeRGB od with
    | none => simp [analyze_image_quality, hd1]
    | some img1 =>
      cases hd2 : cfg.decodeRGB wd with
      | none =>
        cases cfg.decodeRGB od <;> simp [analyze_image_quality, hd2]
      | some img2 =>
        by_cases hM : ((img1.pixels.length * 3 * 255 ^ 2 : ℕ) : ℚ) = 0
        · have hM0 : (img1.pixels.length * 3 * 255 ^ 2 : ℕ) = 0 := by exact_mod_cast hM
          have hlen0 : img1.pixels.length = 0 := by
            simpa [Nat.mul_eq_zero] using hM0
          have hpix : img1.pixels = [] := List.length_eq_zero.mp hlen0
          simp [analyze_image_quality, hd1, hd2, hpix]
        · simp only [analyze_image_quality, hd1, hd2, if_neg hM]
          set img2R : RGBImage :=
            (if img1.width = img2.width ∧ img1.height = img2.height then img2
              else cfg.resize img2 img1.width img1.height) with himg2R
          have hMpos : (0 : ℚ) < ((img1.pixels.length * 3 * 255 ^ 2 : ℕ) : ℚ) :=
            lt_of_le_of_ne (Nat.cast_nonneg _) (Ne.symm hM)
          have hDnn : (0 : ℚ) ≤ (sumSqDiff img1.pixels img2R.pixels : ℚ) := by
            exact_mod_cast sumSqDiff_nonneg img1.pixels img2R.pixels
          have hDle : (sumSqDiff img1.pixels img2R.pixels : ℚ) ≤
              ((img1.pixels.length * 3 * 255 ^ 2 : ℕ) : ℚ) := by
            have hb := sumSqDiff_le img1.pixels img2R.pixels
              img1.pixels_bounded img2R.pixels_bounded
            have hcast : ((sumSqDiff img1.pixels img2R.pixels : ℤ) : ℚ) ≤
                (((img1.pixels.length : ℤ) * (3 * 255 ^ 2) : ℤ) : ℚ) := by
              exact_mod_cast hb
            refine le_trans hcast ?_
            push_cast
            ring_nf
            exact le_refl _
          constructor
          · have hq : (sumSqDiff img1.pixels img2R.pixels : ℚ) /
                ((img1.pixels.length * 3 * 255 ^ 2 : ℕ) : ℚ) ≤ 1 :=
              (div_le_one hMpos).mpr hDle
            linarith
          · have hq : 0 ≤ (sumSqDiff img1.pixels img2R.pixels : ℚ) /
                ((img1.pixels.length * 3 * 255 ^ 2 : ℕ) : ℚ) :=
              div_nonneg hDnn (le_of_lt hMpos)
            linarith

/-- C2: for a non-alpha image the search evaluates exactly the quality
levels 90, 85, 80 in that order with no early exit, starting from a best
size equal to the original's byte size; a level becomes the new best iff
its encoding is strictly smaller than the best size so far and its
similarity against the original is at least 0.95 (the boundary accepted);
if no level is accepted the search keeps no candidate; and when level 85
yields a smaller passing encoding than level 90 (and level 80 does not
supersede it), the level-85 encoding is the one kept. -/
theorem spec_C2_quality_search (cd : Codec) (od : Bytes) (img : PILImage)
    (osz : Nat) (e90 e85 e80 : Bytes)
    (h90 : cd.saveQuality img 90 = some e90)
    (h85 : cd.saveQuality img 85 = some e85)
    (h80 : cd.saveQuality img 80 = some e80) :
    (qualitySearch cd od img osz =
      qualityStep cd od img ⟨osz, 90, none⟩ 90 >>= fun s1 =>
        qualityStep cd od img s1 85 >>= fun s2 => qualityStep cd od img s2 80)
    ∧ (∀ (st : SearchState) (q : Nat) (e : Bytes), cd.saveQuality img q = some e →
        qualityStep cd od img st q =
          Except.ok (if e.length < st.bestSize ∧
              95 / 100 ≤ analyze_image_quality cd.cfg od e
            then ⟨e.length, q, some e⟩ else st))
    ∧ ((∀ (q : Nat) (e : Bytes), q ∈ qualityLevels → cd.saveQuality img q = some e →
          ¬(e.length < osz ∧ 95 / 100 ≤ analyze_image_quality cd.cfg od e)) →
        qualitySearch cd od img osz = Except.ok ⟨osz, 90, none⟩)
    ∧ (e85.length < e90.length → e90.length < osz →
        95 / 100 ≤ analyze_image_quality cd.cfg od e90 →
        95 / 100 ≤ analyze_image_quality cd.cfg od e85 →
        ¬(e80.length < e85.length ∧ 95 / 100 ≤ analyze_image_quality cd.cfg od e80) →
        qualitySearch cd od img osz = Except.ok ⟨e85.length, 85, some e85⟩) := by
  have hstep : ∀ (st : SearchState) (q : Nat) (e : Bytes), cd.saveQuality img q = some e →
      qualityStep cd od img st q =
        Except.ok (if e.length < st.bestSize ∧
            95 / 100 ≤ analyze_image_quality cd.cfg od e
          then ⟨e.length, q, some e⟩ else st) := by
    intro st q e he
    by_cases hl : e.length < st.bestSize
    · by_cases hs : 95 / 100 ≤ analyze_image_quality cd.cfg od e
      · simp [qualityStep, he, hl, hs, ge_iff_le]
      · simp [qualityStep, he, hl, hs, ge_iff_le]
    · simp [qualityStep, he, hl]
  have hseq : qualitySearch cd od img osz =
      qualityStep cd od img ⟨osz, 90, none⟩ 90 >>= fun s1 =>
        qualityStep cd od img s1 85 >>= fun s2 => qualityStep cd od img s2 80 := by
    simp [qualitySearch, qualityLevels, List.foldlM_cons, List.foldlM_nil]
  refine ⟨hseq, hstep, ?_, ?_⟩
  · intro hnone
    have t90 := hstep ⟨osz, 90, none⟩ 90 e90 h90
    rw [if_neg (hnone 90 e90 (by simp [qualityLevels]) h90)] at t90
    have t85 := hstep ⟨osz, 90, none⟩ 85 e85 h85
    rw [if_neg (hnone 85 e85 (by simp [qualityLevels]) h85)] at t85
    have t80 := hstep ⟨osz, 90, none⟩ 80 e80 h80
    rw [if_neg (hnone 80 e80 (by simp [qualityLevels]) h80)] at t80
    rw [hseq]
    simp [t90, t85, t80, Bind.bind, Except.bind]
  · intro hlt85 hlt90 hs90 hs85 hno80
    have t90 := hstep ⟨osz, 90, none⟩ 90 e90 h90
    rw [if_pos ⟨hlt90, hs90⟩] at t90
    have t85 := hstep ⟨e90.length, 90, some e90⟩ 85 e85 h85
    rw [if_pos ⟨hlt85, hs85⟩] at t85
    have t80 := hstep ⟨e85.length, 85, some e85⟩ 80 e80 h80
    rw [if_neg hno80] at t80
    rw [hseq]
    simp [t90, t85, t80, Bind.bind, Except.bind]

/-- C3: for an image whose mode carries an alpha channel (RGBA or LA, the
alpha-bearing modes PIL reports for jpg/jpeg/png input), the candidate
phase produces exactly one candidate, the lossless encoding; the
similarity estimator and the lossy encoder are never consulted (the
outcome is independent of them); and the candidate is still subject to
the size comparison: a lossless encoding at least as large as the
original yields the Skipped outcome with the tree untouched. -/
theorem spec_C3_alpha_path (cd cd2 : Codec) (fl : Faults) (fs : FS) (p : FilePath)
    (od : Bytes) (img : PILImage)
    (hread : FS.read fs p = some od) (hro : fl.readOk = true)
    (hopen : cd.openImage od = some img) (halpha : isAlphaMode img.mode = true) :
    ((cd.saveLossless img = none → computeCandidate cd od = Except.error ())
      ∧ ∀ wd, cd.saveLossless img = some wd →
          computeCandidate cd od = Except.ok (some wd))
    ∧ (∀ wd, cd.saveLossless img = some wd →
        ((convert_to_webp cd fl fs p).2 = none ↔ od.length ≤ wd.length))
    ∧ (∀ wd, cd.saveLossless img = some wd → od.length ≤ wd.length →
        convert_to_webp cd fl fs p = (fs, none))
    ∧ (cd2.openImage = cd.openImage → cd2.saveLossless = cd.saveLossless →
        convert_to_webp cd2 fl fs p = convert_to_webp cd fl fs p) := by
  have hcand : ∀ wd, cd.saveLossless img = some wd →
      computeCandidate cd od = Except.ok (some wd) := by
    intro wd hsl
    simp [computeCandidate, hopen, halpha, hsl]
  refine ⟨⟨?_, hcand⟩, ?_, ?_, ?_⟩
  · intro hsl
    simp [computeCandidate, hopen, halpha, hsl]
  · intro wd hsl
    have hc := hcand wd hsl
    constructor
    · intro hnone
      by_contra hlen
      have hlt : wd.length < od.length := Nat.lt_of_not_le hlen
      have hbody : convertBody cd fl fs p = writePhase fl fs p wd := by
        simp [convertBody, hread, hro, hc, ge_iff_le, hlen]
      rcases writePhase_outcome fl fs p wd with hout | hout
      · have : (convert_to_webp cd fl fs p).2 = some true :=
          (convert_eq_body cd fl fs p).2.mpr (by rw [hbody]; exact hout)
        rw [hnone] at this
        exact Option.noConfusion this
      · have hcap := convert_error_captured cd fl fs p () (by rw [hbody]; exact hout)
        have : (convert_to_webp cd fl fs p).2 = some false := by rw [hcap]
        rw [hnone] at this
        exact Option.noConfusion this
    · intro hlen
      have hbody : convertBody cd fl fs p = (fs, Except.ok none) := by
        simp [convertBody, hread, hro, hc, ge_iff_le, hlen]
      simp [convert_to_webp, hbody]
  · intro wd hsl hlen
    have hbody : convertBody cd fl fs p = (fs, Except.ok none) := by
      simp [convertBody, hread, hro, hcand wd hsl, ge_iff_le, hlen]
    simp [convert_to_webp, hbody]
  · intro hopen2 hsl2
    have hcc : computeCandidate cd2 od = computeCandidate cd od := by
      unfold computeCandidate
      rw [hopen2, hsl2, hopen]
      simp [halpha]
    unfold convert_to_webp convertBody
    simp only [hread]
    rw [hcc]

/-- C1 (amended): for every processed file, if the outcome is Converted
the sibling .webp file exists with byte size strictly smaller than the
original's recorded size and the original path no longer exists; if the
outcome is Skipped or Failed the original still exists byte-for-byte
identical; and the original is only ever deleted after the replacement's
bytes were completely written (whenever the original is gone, the outcome
is Converted and the complete candidate sits at the sibling path).  The
one state in which original and replacement coexist is a Failed outcome
whose deletion of the original raised after the completed write. -/
theorem spec_C1_destructive_safety (cd : Codec) (fl : Faults) (fs : FS)
    (p : FilePath) (hp : p.ext ≠ ".webp") :
    ((convert_to_webp cd fl fs p).2 = some true →
      ∃ od wd, FS.read fs p = some od ∧ wd.length < od.length ∧
        FS.read (convert_to_webp cd fl fs p).1 (FilePath.withSuffix p ".webp") = some wd ∧
        FS.read (convert_to_webp cd fl fs p).1 p = none)
    ∧ ((convert_to_webp cd fl fs p).2 ≠ some true →
        FS.read (convert_to_webp cd fl fs p).1 p = FS.read fs p)
    ∧ (FS.read fs p ≠ none → FS.read (convert_to_webp cd fl fs p).1 p = none →
        (convert_to_webp cd fl fs p).2 = some true ∧
        ∃ od wd, FS.read fs p = some od ∧ wd.length < od.length ∧
          FS.read (convert_to_webp cd fl fs p).1 (FilePath.withSuffix p ".webp") = some wd) := by
  have hpw : FilePath.withSuffix p ".webp" ≠ p := by
    intro hc
    refine hp ?_
    rw [← hc]
    rfl
  refine ⟨?_, ?_, ?_⟩
  · intro h
    obtain ⟨od, wd, h1, h2, h3, h4, _⟩ := convert_true_post hpw h
    exact ⟨od, wd, h1, h2, h3, h4⟩
  · intro h
    exact convert_not_true_read hpw h
  · intro hsome hgone
    by_cases h : (convert_to_webp cd fl fs p).2 = some true
    · obtain ⟨od, wd, h1, h2, h3, _, _⟩ := convert_true_post hpw h
      exact ⟨h, od, wd, h1, h2, h3⟩
    · exact absurd (convert_not_true_read hpw h ▸ hgone) hsome

/-- C6: any exception in a file's per-file processing is captured as the
Failed outcome for that file alone; it never aborts the batch: the driver
continues with the remaining files, yields exactly one outcome per
enumerated file, and the tally counts every captured failure. -/
theorem spec_C6_per_file_errors (cd : Codec) (fl : FilePath → Faults) :
    (∀ (gs : FS) (p : FilePath) (u : Unit),
      (convertBody cd (fl p) gs p).2 = Except.error u →
        convert_to_webp cd (fl p) gs p = ((convertBody cd (fl p) gs p).1, some false))
    ∧ (∀ (fs : FS) (p : FilePath) (ps : List FilePath),
        runFiles cd fl fs (p :: ps) =
          ((runFiles cd fl (convert_to_webp cd (fl p) fs p).1 ps).1,
            (convert_to_webp cd (fl p) fs p).2 ::
              (runFiles cd fl (convert_to_webp cd (fl p) fs p).1 ps).2))
    ∧ (∀ (fs : FS) (ps : List FilePath), (runFiles cd fl fs ps).2.length = ps.length)
    ∧ (∀ rs : List (Option Bool),
        (tallyResults rs).2.2 = rs.countP (fun r => decide (r = some false))) := by
  refine ⟨?_, ?_, runFiles_length cd fl, ?_⟩
  · intro gs p u h
    exact convert_error_captured cd (fl p) gs p u h
  · intro fs p ps
    rfl
  · intro rs
    rw [tallyResults_eq]

/-- C7: a file converted in a run now exists only under the .webp
extension, which is not in the supported input set, so a second
enumeration of the resulting tree yields neither the original path nor
its .webp sibling: the file is not re-converted and contributes nothing
to a second run's converted count. -/
theorem spec_C7_idempotent (cd : Codec) (fl : FilePath → Faults) (fs : FS) :
    (".webp" ∉ supportedExts)
    ∧ ∀ pr ∈ List.zip (enumerateImages fs true)
        (runFiles cd fl fs (enumerateImages fs true)).2,
        pr.2 = some true →
          pr.1 ∉ enumerateImages (runFiles cd fl fs (enumerateImages fs true)).1 true ∧
          FilePath.withSuffix pr.1 ".webp" ∉
            enumerateImages (runFiles cd fl fs (enumerateImages fs true)).1 true := by
  refine ⟨by simp [supportedExts], ?_⟩
  intro pr hpr htrue
  have hexts : ∀ y ∈ enumerateImages fs true, y.ext ≠ ".webp" := by
    intro y hy hcon
    have hsup := enumerateImages_ext hy
    rw [hcon] at hsup
    simp [supportedExts] at hsup
  have habs := runFiles_converted_absent cd fl fs _ hexts pr hpr htrue
  constructor
  · intro hmem
    obtain ⟨_, e, he, hep⟩ := mem_enumerateImages.mp hmem
    exact habs e he hep
  · intro hmem
    have hsup := enumerateImages_ext hmem
    simp [FilePath.withSuffix, supportedExts] at hsup

/-- C8 (amended): the driver enumerates, before any processing begins,
exactly the entries of the initial tree -- regular files and directories
alike, since pathlib's wildcard does not test the entry kind -- whose
extension is .jpg, .jpeg or .png (matched with pathlib's platform case
convention, literally on POSIX), and the fixed list is what the run then
processes, one outcome per entry. -/
theorem spec_C8_enumeration (fs : FS) (cd : Codec) (fl : FilePath → Faults) :
    (∀ x, x ∈ enumerateImages fs true ↔
      (x.ext ∈ supportedExts ∧ ∃ e ∈ fs, e.path = x))
    ∧ enumerateImages fs false = []
    ∧ (runFiles cd fl fs (enumerateImages fs true)).2.length =
        (enumerateImages fs true).length := by
  exact ⟨fun x => mem_enumerateImages, rfl, runFiles_length cd fl fs _⟩

/-- C8 counterexample: a directory named like photos/thumbs.jpg is
enumerated by the source's rglob-based listing although it is not a
regular file, so the enumeration differs from the regular-files-only
listing the claim describes. -/
theorem spec_C8_counterexample :
    enumerateImages exDirFS true = [⟨"photos/thumbs", ".jpg"⟩] ∧
    specRegularImageFiles exDirFS = [] ∧
    enumerateImages exDirFS true ≠ specRegularImageFiles exDirFS := by
  refine ⟨by decide, by decide, by decide⟩

/-- C9 (amended): an unreadable root directory does not abort the run:
pathlib suppresses the permission error, the enumeration is empty, no
file is processed (the tree is untouched), the summary reports a zero
tally, and the process exits with status 0.  An exception actually
raised at top level -- pool startup failure -- does exit with status 1
before processing any file. -/
theorem spec_C9_unreadable_root (cd : Codec) (fl : FilePath → Faults) (fs : FS) :
    enumerateImages fs false = []
    ∧ process_directory cd fl false true fs = (fs, Except.ok (0, 0, 0))
    ∧ mainRun cd fl false true fs = (fs, 0)
    ∧ (∀ rootReadable : Bool, mainRun cd fl rootReadable false fs = (fs, 1)) := by
  refine ⟨rfl, ?_, ?_, ?_⟩
  · simp [process_directory, enumerateImages, runFiles, tallyResults]
  · simp [mainRun, process_directory, enumerateImages, runFiles, tallyResults]
  · intro rootReadable
    simp [mainRun, process_directory]

/-- C9 counterexample: a tree holding a matching regular file, with the
root unreadable: the run completes normally with exit status 0 and an
untouched tree instead of aborting with a non-zero status. -/
theorem spec_C9_counterexample :
    FS.read exC9FS ⟨"a", ".jpg"⟩ = some [1, 2, 3] ∧
    enumerateImages exC9FS true = [⟨"a", ".jpg"⟩] ∧
    mainRun exACodec (fun _ => exFaultsOk) false true exC9FS = (exC9FS, 0) := by
  refine ⟨by decide, by decide, by decide⟩

/-- C10: for every completed run the tally's three counters count exactly
the Converted (some true), Skipped (none) and Failed (some false)
outcomes, and their sum is the number of enumerated files. -/
theorem spec_C10_tally (cd : Codec) (fl : FilePath → Faults) (rootReadable : Bool)
    (fs : FS) (rs : List (Option Bool))
    (hrs : rs = (runFiles cd fl fs (enumerateImages fs rootReadable)).2) :
    process_directory cd fl rootReadable true fs =
      ((runFiles cd fl fs (enumerateImages fs rootReadable)).1,
        Except.ok (tallyResults rs))
    ∧ (tallyResults rs).1 = rs.countP (fun r => decide (r = some true))
    ∧ (tallyResults rs).2.1 = rs.countP (fun r => decide (r = none))
    ∧ (tallyResults rs).2.2 = rs.countP (fun r => decide (r = some false))
    ∧ (tallyResults rs).1 + (tallyResults rs).2.1 + (tallyResults rs).2.2 =
        (enumerateImages fs rootReadable).length := by
  subst hrs
  refine ⟨by simp [process_directory], ?_, ?_, ?_, ?_⟩ <;> rw [tallyResults_eq]
  have hsum := counts_sum (runFiles cd fl fs (enumerateImages fs rootReadable)).2
  rw [runFiles_length cd fl fs _] at hsum
  exact hsum

/-- C1 counterexample: when os.remove raises after the .webp write
completed, the outcome is Failed and the original and its replacement
both exist as the final state, refuting the claim's headline that they
never coexist. -/
theorem spec_C1_counterexample :
    (convert_to_webp exACodec exFaultsRemoveFail exAFS exAPath).2 = some false ∧
    FS.read (convert_to_webp exACodec exFaultsRemoveFail exAFS exAPath).1 exAPath =
      some [1, 2, 3, 4] ∧
    FS.read (convert_to_webp exACodec exFaultsRemoveFail exAFS exAPath).1
      (FilePath.withSuffix exAPath ".webp") = some [9, 9] := by
  refine ⟨by decide, by decide, by decide⟩

/-- C1 witness: a fault-free conversion of the concrete RGBA file. -/
theorem spec_C1_witness :
    ∃ od wd, FS.read exAFS exAPath = some od ∧ wd.length < od.length ∧
      FS.read (convert_to_webp exACodec exFaultsOk exAFS exAPath).1
        (FilePath.withSuffix exAPath ".webp") = some wd ∧
      FS.read (convert_to_webp exACodec exFaultsOk exAFS exAPath).1 exAPath = none :=
  (spec_C1_destructive_safety exACodec exFaultsOk exAFS exAPath (by decide)).1 (by decide)

/-- C2 witness: on the concrete codec the level-85 encoding (3 bytes,
similarity 1) beats level 90 (5 bytes) and survives level 80 (10 bytes). -/
theorem spec_C2_witness :
    qualitySearch exCodec exOrig exImgRGB 8 =
      Except.ok ⟨enc85.length, 85, some enc85⟩ := by
  have hs90 : (95 : ℚ) / 100 ≤ analyze_image_quality exCodec.cfg exOrig enc90 := by
    norm_num [analyze_image_quality, exCodec, mkCfg, exDec, exOrig, enc90,
      exImg1, sumSqDiff, pixelDiff]
  have hs85 : (95 : ℚ) / 100 ≤ analyze_image_quality exCodec.cfg exOrig enc85 := by
    norm_num [analyze_image_quality, exCodec, mkCfg, exDec, exOrig, enc90, enc85,
      exImg1, sumSqDiff, pixelDiff]
  exact (spec_C2_quality_search exCodec exOrig exImgRGB 8 enc90 enc85 enc80
    rfl rfl rfl).2.2.2 (by decide) (by decide) hs90 hs85
    (fun hc => absurd hc.1 (by decide))

/-- C3 witness: a concrete RGBA file whose 2-byte lossless encoding is not
smaller than its 1-byte original is skipped with the tree untouched. -/
theorem spec_C3_witness :
    convert_to_webp exACodec exFaultsOk exBFS exBPath = (exBFS, none) :=
  ((spec_C3_alpha_path exACodec exACodec exFaultsOk exBFS exBPath [7]
      ⟨PILMode.RGBA, 0⟩ (by decide) rfl (by decide) (by decide)).2.2.1)
    [9, 9] (by decide) (by decide)

/-- C4 witness: the formula evaluated at two concrete decodable buffers of
equal dimensions. -/
theorem spec_C4_witness :
    analyze_image_quality (mkCfg exDec) exOrig enc90 =
        1 - (sumSqDiff exImg1.pixels exImg1.pixels : ℚ)
            / ((exImg1.pixels.length * 3 * 255 ^ 2 : ℕ) : ℚ)
      ∧ exImg1.width = exImg1.width ∧ exImg1.height = exImg1.height
      ∧ (List.zipWith pixelDiff exImg1.pixels exImg1.pixels).length =
          exImg1.pixels.length :=
  spec_C4_similarity_formula (mkCfg exDec) exOrig enc90 exImg1 exImg1 exImg1
    rfl rfl (if_pos ⟨rfl, rfl⟩).symm (by decide)

/-- C5 witness: an undecodable buffer scores exactly 0, and a concrete
successful comparison stays inside the unit interval. -/
theorem spec_C5_witness :
    analyze_image_quality (mkCfg exDec) [5] [5] = 0 ∧
    0 ≤ analyze_image_quality (mkCfg exDec) exOrig enc90 ∧
    analyze_image_quality (mkCfg exDec) exOrig enc90 ≤ 1 :=
  ⟨(spec_C5_fail_closed (mkCfg exDec) [5] [5]).1 (Or.inl rfl),
    (spec_C5_fail_closed (mkCfg exDec) exOrig enc90).2.1,
    (spec_C5_fail_closed (mkCfg exDec) exOrig enc90).2.2⟩

/-- C6 witness: a missing file raises inside the body, is captured as the
Failed outcome with the tree untouched, and the driver still yields one
outcome per enumerated file of the concrete batch. -/
theorem spec_C6_witness :
    convert_to_webp exACodec exFaultsOk [] exAPath = (([] : FS), some false) ∧
    (runFiles exACodec (fun _ => exFaultsOk) exAFS (enumerateImages exAFS true)).2.length =
      (enumerateImages exAFS true).length :=
  ⟨((spec_C6_per_file_errors exACodec (fun _ => exFaultsOk)).1 [] exAPath ()
      rfl).trans (by decide),
    (spec_C6_per_file_errors exACodec (fun _ => exFaultsOk)).2.2.1 exAFS
      (enumerateImages exAFS true)⟩

/-- C7 witness: the file converted in the concrete run is enumerated by
neither path in a second enumeration of the resulting tree. -/
theorem spec_C7_witness :
    exAPath ∉ enumerateImages
        (runFiles exACodec (fun _ => exFaultsOk) exAFS (enumerateImages exAFS true)).1
        true ∧
    FilePath.withSuffix exAPath ".webp" ∉ enumerateImages
        (runFiles exACodec (fun _ => exFaultsOk) exAFS (enumerateImages exAFS true)).1
        true :=
  (spec_C7_idempotent exACodec (fun _ => exFaultsOk) exAFS).2
    (exAPath, some true) (by decide) (by decide)

/-- C8 witness: the membership characterisation evaluated at the concrete
directory entry. -/
theorem spec_C8_witness :
    (⟨"photos/thumbs", ".jpg"⟩ : FilePath) ∈ enumerateImages exDirFS true ↔
      ((⟨"photos/thumbs", ".jpg"⟩ : FilePath).ext ∈ supportedExts ∧
        ∃ e ∈ exDirFS, e.path = ⟨"photos/thumbs", ".jpg"⟩) :=
  (spec_C8_enumeration exDirFS exACodec (fun _ => exFaultsOk)).1
    ⟨"photos/thumbs", ".jpg"⟩

/-- C9 witness: the unreadable-root run on the concrete tree exits with
status 0 and the tree untouched. -/
theorem spec_C9_witness :
    mainRun exACodec (fun _ => exFaultsOk) false true exC9FS = (exC9FS, 0) :=
  (spec_C9_unreadable_root exACodec (fun _ => exFaultsOk) exC9FS).2.2.1

/-- C10 witness: the three counters of the concrete run sum to the number
of enumerated files. -/
theorem spec_C10_witness :
    (tallyResults (runFiles exACodec (fun _ => exFaultsOk) exAFS
        (enumerateImages exAFS true)).2).1 +
    (tallyResults (runFiles exACodec (fun _ => exFaultsOk) exAFS
        (enumerateImages exAFS true)).2).2.1 +
    (tallyResults (runFiles exACodec (fun _ => exFaultsOk) exAFS
        (enumerateImages exAFS true)).2).2.2 =
      (enumerateImages exAFS true).length :=
  (spec_C10_tally exACodec (fun _ => exFaultsOk) true exAFS _ rfl).2.2.2.2
